import Mathlib

/-!
Verification development for `scripts/generate-latest-json.py` of the
`code-switch` repository.

The script is embedded shallowly: strings are `List Char`, file contents are
`List Nat` (byte values), the filesystem visible to one run is an explicit
structure, and `runMain` is the straight-line translation of `main()`.
SHA-256 is implemented concretely (FIPS 180-4), standing in for Python's
`hashlib.sha256`; the hasher object is modelled by the byte sequence it has
absorbed, which is the documented `update`/`hexdigest` contract.  Python
`str` helpers (`strip`, `split`, `lower`, `lstrip`) are modelled over ASCII,
which covers every string the script manipulates.  Wall-clock parts
(`pub_date`) and the trailing JSON echo on stdout are outside the embedding.
-/

set_option maxRecDepth 100000
set_option maxHeartbeats 1000000

namespace CS

/-! ## Python string primitives -/

/-- ASCII whitespace, the characters Python's `str.strip()` / `str.split()`
treat as separators (the script only ever feeds ASCII text through them). -/
def isPyWS (c : Char) : Bool :=
  c == ' ' || c == '\t' || c == '\n' || c == '\r' || c == '\x0b' || c == '\x0c'

/-- Python `s.rstrip()`. -/
def rstripWS (s : List Char) : List Char :=
  (s.reverse.dropWhile isPyWS).reverse

/-- Python `s.strip()` (no argument): remove whitespace from both ends. -/
def pyStrip (s : List Char) : List Char :=
  (rstripWS s).dropWhile isPyWS

/-- Accumulator worker for `pySplitWS`. -/
def splitWSAux : List Char → List Char → List (List Char)
  | [], acc => if acc = [] then [] else [acc.reverse]
  | c :: cs, acc =>
    if isPyWS c then
      (if acc = [] then splitWSAux cs [] else acc.reverse :: splitWSAux cs [])
    else splitWSAux cs (c :: acc)

/-- Python `s.split()` (no argument): split on whitespace runs, no empty
tokens. -/
def pySplitWS (s : List Char) : List (List Char) :=
  splitWSAux s []

/-- Python `s.lower()` restricted to ASCII (digests and checksum tokens). -/
def pyLower (s : List Char) : List Char :=
  s.map Char.toLower

/-- Python `s.split("\n")`: preserves empty pieces, `"".split("\n") = [""]`. -/
def nlSplit : List Char → List (List Char)
  | [] => [[]]
  | c :: cs =>
    if c = '\n' then [] :: nlSplit cs
    else
      match nlSplit cs with
      | [] => [[c]]
      | l :: ls => (c :: l) :: ls

/-- Python `"\n".join(lines)`. -/
def nlJoin : List (List Char) → List Char
  | [] => []
  | [l] => l
  | l :: ls => l ++ '\n' :: nlJoin ls

/-- Concatenation of a list of lists (used for the interleaved log lines). -/
def catLists : List (List α) → List α
  | [] => []
  | l :: ls => l ++ catLists ls

/-- `Path.read_text()` on a byte file, for the ASCII sidecar/notes files. -/
def decodeText (bs : List Nat) : List Char :=
  bs.map fun b => Char.ofNat b

/-! ## SHA-256 (FIPS 180-4), the semantics of `hashlib.sha256` -/

/-- Truncation to a 32-bit word. -/
def w32 (x : Nat) : Nat := x % 4294967296

/-- Right rotation of a 32-bit word by `n` (for `1 ≤ n ≤ 31`). -/
def rotr32 (n x : Nat) : Nat := w32 ((x >>> n) ||| (x <<< (32 - n)))

def shaCh (x y z : Nat) : Nat := w32 ((x &&& y) ^^^ ((x ^^^ 4294967295) &&& z))

def shaMaj (x y z : Nat) : Nat := w32 ((x &&& y) ^^^ (x &&& z) ^^^ (y &&& z))

def bigSigma0 (x : Nat) : Nat := rotr32 2 x ^^^ rotr32 13 x ^^^ rotr32 22 x

def bigSigma1 (x : Nat) : Nat := rotr32 6 x ^^^ rotr32 11 x ^^^ rotr32 25 x

def smallSigma0 (x : Nat) : Nat := rotr32 7 x ^^^ rotr32 18 x ^^^ (x >>> 3)

def smallSigma1 (x : Nat) : Nat := rotr32 17 x ^^^ rotr32 19 x ^^^ (x >>> 10)

/-- The 64 SHA-256 round constants (FIPS 180-4 §4.2.2, here in decimal). -/
def K64 : List Nat :=
  [1116352408, 1899447441, 3049323471, 3921009573, 961987163, 1508970993,
   2453635748, 2870763221, 3624381080, 310598401, 607225278, 1426881987,
   1925078388, 2162078206, 2614888103, 3248222580, 3835390401, 4022224774,
   264347078, 604807628, 770255983, 1249150122, 1555081692, 1996064986,
   2554220882, 2821834349, 2952996808, 3210313671, 3336571891, 3584528711,
   113926993, 338241895, 666307205, 773529912, 1294757372, 1396182291,
   1695183700, 1986661051, 2177026350, 2456956037, 2730485921, 2820302411,
   3259730800, 3345764771, 3516065817, 3600352804, 4094571909, 275423344,
   430227734, 506948616, 659060556, 883997877, 958139571, 1322822218,
   1537002063, 1747873779, 1955562222, 2024104815, 2227730452, 2361852424,
   2428436474, 2756734187, 3204031479, 3329325298]

/-- The eight 32-bit working variables of the hash state. -/
structure H8 where
  a : Nat
  b : Nat
  c : Nat
  d : Nat
  e : Nat
  f : Nat
  g : Nat
  h : Nat
deriving DecidableEq

/-- SHA-256 initial hash value (FIPS 180-4 §5.3.3, in decimal). -/
def sha256init : H8 :=
  ⟨1779033703, 3144134277, 1013904242, 2773480762,
   1359893119, 2600822924, 528734635, 1541459225⟩

/-- Big-endian packing of a 64-byte block into the first 16 schedule words. -/
def words16 : List Nat → List Nat
  | b0 :: b1 :: b2 :: b3 :: rest =>
    w32 ((b0 <<< 24) + (b1 <<< 16) + (b2 <<< 8) + b3) :: words16 rest
  | _ => []

/-- Extend 16 schedule words to 64. -/
def extendSchedule (ws : List Nat) : List Nat :=
  (List.range 48).foldl
    (fun acc _ =>
      let n := acc.length
      acc ++ [w32 (smallSigma1 (acc.getD (n - 2) 0) + acc.getD (n - 7) 0 +
                   smallSigma0 (acc.getD (n - 15) 0) + acc.getD (n - 16) 0)])
    ws

/-- One SHA-256 round, consuming a `(scheduleWord, roundConstant)` pair. -/
def roundStep (st : H8) (wk : Nat × Nat) : H8 :=
  let t1 := w32 (st.h + bigSigma1 st.e + shaCh st.e st.f st.g + wk.2 + wk.1)
  let t2 := w32 (bigSigma0 st.a + shaMaj st.a st.b st.c)
  ⟨w32 (t1 + t2), st.a, st.b, st.c, w32 (st.d + t1), st.e, st.f, st.g⟩

/-- SHA-256 compression of one 64-byte block. -/
def compress (st : H8) (block : List Nat) : H8 :=
  let ws := extendSchedule (words16 block)
  let r := (ws.zip K64).foldl roundStep st
  ⟨w32 (st.a + r.a), w32 (st.b + r.b), w32 (st.c + r.c), w32 (st.d + r.d),
   w32 (st.e + r.e), w32 (st.f + r.f), w32 (st.g + r.g), w32 (st.h + r.h)⟩

/-- The message length in bits as eight big-endian bytes. -/
def lenBytes8 (n : Nat) : List Nat :=
  [(n >>> 56) % 256, (n >>> 48) % 256, (n >>> 40) % 256, (n >>> 32) % 256,
   (n >>> 24) % 256, (n >>> 16) % 256, (n >>> 8) % 256, n % 256]

/-- SHA-256 padding: `0x80`, zeros to 56 mod 64, then the 64-bit bit length. -/
def sha256pad (msg : List Nat) : List Nat :=
  let L := msg.length
  msg ++ 128 :: List.replicate ((119 - L % 64) % 64) 0 ++ lenBytes8 (8 * L)

/-- Split a byte list into `size`-byte blocks.  The first argument is
structural fuel: any value above the block count gives the same result, and
the callers below always pass enough. -/
def chunksBy (size : Nat) : Nat → List Nat → List (List Nat)
  | 0, _ => []
  | fuel + 1, l => if l = [] then [] else l.take size :: chunksBy size fuel (l.drop size)

/-- Split a byte list into 64-byte blocks. -/
def chunks64 (l : List Nat) : List (List Nat) :=
  chunksBy 64 (l.length + 1) l

/-- Big-endian bytes of one 32-bit word. -/
def wordBytes (w : Nat) : List Nat :=
  [(w >>> 24) % 256, (w >>> 16) % 256, (w >>> 8) % 256, w % 256]

/-- The 32-byte digest of a final hash state. -/
def digestBytes (st : H8) : List Nat :=
  wordBytes st.a ++ wordBytes st.b ++ wordBytes st.c ++ wordBytes st.d ++
  wordBytes st.e ++ wordBytes st.f ++ wordBytes st.g ++ wordBytes st.h

/-- The sixteen lowercase hexadecimal digits. -/
def hexDigits : List Char :=
  "0123456789abcdef".data

/-- One hex digit (any input is first reduced mod 16). -/
def nib (n : Nat) : Char := hexDigits.getD (n % 16) '0'

/-- Two lowercase hex characters of one byte. -/
def byteHex (b : Nat) : List Char := [nib (b / 16), nib b]

/-- Lowercase hex rendering of a byte list. -/
def hexOfBytes : List Nat → List Char
  | [] => []
  | b :: bs => byteHex b ++ hexOfBytes bs

/-- SHA-256 of a whole byte sequence, as bytes. -/
def sha256bytes (msg : List Nat) : List Nat :=
  digestBytes ((chunks64 (sha256pad msg)).foldl compress sha256init)

/-- SHA-256 of a whole byte sequence as a lowercase hex string: the one-pass
digest `hashlib.sha256(data).hexdigest()`. -/
def sha256hex (msg : List Nat) : List Char :=
  hexOfBytes (sha256bytes msg)

/-! ## The streaming hasher of `compute_sha256` -/

/-- A `hashlib.sha256()` object, identified with the byte sequence it has
absorbed so far (`update` concatenates, `hexdigest` hashes the whole). -/
structure Hasher where
  absorbed : List Nat
deriving DecidableEq

def Hasher.update (h : Hasher) (block : List Nat) : Hasher :=
  ⟨h.absorbed ++ block⟩

def Hasher.hexdigest (h : Hasher) : List Char :=
  sha256hex h.absorbed

/-- The successive results of `f.read(4096)` until the empty read. -/
def chunks4096 (l : List Nat) : List (List Nat) :=
  chunksBy 4096 (l.length + 1) l

/-- `compute_sha256`: stream the file through the hasher in 4096-byte blocks
and return the lowercase hex digest. -/
def compute_sha256 (content : List Nat) : List Char :=
  ((chunks4096 content).foldl Hasher.update ⟨[]⟩).hexdigest

/-- `get_file_size`: `st_size` of a file is its byte count. -/
def get_file_size (content : List Nat) : Nat :=
  content.length

/-! ## `pathlib` suffix arithmetic (for the sidecar path) -/

/-- `name.rfind "."`: index of the last dot of a file name, if any. -/
def rfindDot (name : List Char) : Option Nat :=
  ((List.range name.length).filter fun j => name.getD j '#' == '.').getLast?

/-- `PurePath.suffix`: the final extension, dot included; empty when the last
dot is absent, leading, or trailing. -/
def pySuffix (name : List Char) : List Char :=
  match rfindDot name with
  | none => []
  | some i => if 0 < i ∧ i + 1 < name.length then name.drop i else []

/-- `PurePath.with_suffix`: drop the old suffix (when present) and append the
new one. -/
def withSuffix (name newSuffix : List Char) : List Char :=
  if pySuffix name = [] then name ++ newSuffix
  else name.take (name.length - (pySuffix name).length) ++ newSuffix

/-- `asset_file.with_suffix(asset_file.suffix + ".sha256")`: the sidecar
checksum path tried for a matched asset. -/
def sidecarPathOf (name : List Char) : List Char :=
  withSuffix name (pySuffix name ++ ".sha256".data)

/-! ## `Path.glob` and `find_asset` -/

/-- Fueled worker for `globMatch`: every recursive call shrinks
`pattern.length + string.length`, so fuel above that sum is always enough. -/
def globMatchF : Nat → List Char → List Char → Bool
  | 0, _, _ => false
  | _ + 1, [], [] => true
  | _ + 1, [], _ :: _ => false
  | fuel + 1, '*' :: ps, [] => globMatchF fuel ps []
  | fuel + 1, '*' :: ps, c :: s =>
    globMatchF fuel ps (c :: s) || globMatchF fuel ('*' :: ps) s
  | _ + 1, '?' :: _, [] => false
  | fuel + 1, '?' :: ps, _ :: s => globMatchF fuel ps s
  | _ + 1, _ :: _, [] => false
  | fuel + 1, p :: ps, c :: s => p == c && globMatchF fuel ps s

/-- Shell-glob matching with `*` and `?` (the script's patterns use no
character classes). -/
def globMatch (p s : List Char) : Bool :=
  globMatchF (p.length + s.length + 1) p s

/-- `Path.glob` name matching: patterns not starting with a dot skip hidden
files. -/
def globEntry (pat name : List Char) : Bool :=
  match name, pat with
  | '.' :: _, '.' :: _ => globMatch pat name
  | '.' :: _, _ => false
  | _, _ => globMatch pat name

/-- A directory is a list of `(name, byte content)` pairs in listing order. -/
def lookupFile (files : List (List Char × List Nat)) (name : List Char) :
    Option (List Nat) :=
  (files.find? fun f => f.1 == name).map Prod.snd

/-- `find_asset`: first pattern with a match wins, first matching file in
listing order is returned. -/
def find_asset (files : List (List Char × List Nat)) :
    List (List Char) → Option (List Char × List Nat)
  | [] => none
  | pat :: rest =>
    match files.find? (fun f => globEntry pat f.1) with
    | some f => some f
    | none => find_asset files rest

/-! ## Sidecar checksum cross-validation -/

/-- The three warning lines printed on a digest mismatch. -/
def mismatchLines (assetName computedHex tok : List Char) : List (List Char) :=
  ["Warning: SHA256 mismatch for ".data ++ assetName,
   "  Computed: ".data ++ computedHex,
   "  From file: ".data ++ tok]

/-- `content.split()[0]`: Python raises `IndexError` when there is no token. -/
def tokenIdx0 (s : List Char) : Except String (List Char) :=
  match pySplitWS s with
  | [] => Except.error "IndexError"
  | tok :: _ => Except.ok tok

/-- The sidecar-file block of `main`, with the possible `IndexError` of
`content.split()[0]` kept explicit: returns the warning lines printed. -/
def sidecarCheckE (assetName computedHex : List Char) (sidecar : Option (List Nat)) :
    Except String (List (List Char)) :=
  match sidecar with
  | none => Except.ok []
  | some raw =>
    let content := pyStrip (decodeText raw)
    if content = [] then Except.ok []
    else
      match tokenIdx0 content with
      | Except.error e => Except.error e
      | Except.ok tok =>
        if pyLower tok = pyLower computedHex then Except.ok []
        else Except.ok (mismatchLines assetName computedHex tok)

/-- The warning lines of the sidecar block (the error branch is unreachable,
see `sidecarCheckE_ok`). -/
def sidecarWarnings (assetName computedHex : List Char) (sidecar : Option (List Nat)) :
    List (List Char) :=
  match sidecarCheckE assetName computedHex sidecar with
  | Except.ok ls => ls
  | Except.error _ => []

/-! ## Release-notes extraction (the `re.search` over `RELEASE_NOTES.md`) -/

/-- The literal prefix `# Code Switch v` of the pattern and of the lookahead. -/
def marker : List Char := "# Code Switch v".data

/-- The head of the regex: `# Code Switch v` followed by the cleaned version. -/
def headLit (vc : List Char) : List Char := marker ++ vc

/-- Does the head pattern match at the start of `s`?  The version is pasted
into the regex unescaped, so its `.` characters match any character; all other
characters of the script's version strings are regex-literal. -/
def patMatchAt : List Char → List Char → Bool
  | [], _ => true
  | _ :: _, [] => false
  | p :: ps, c :: cs => (p == '.' || p == c) && patMatchAt ps cs

/-- The leftmost start position at which the head pattern matches
(`re.search` scans left to right). -/
def findMatchPos (pat : List Char) : List Char → Option Nat
  | [] => if patMatchAt pat [] then some 0 else none
  | c :: s =>
    if patMatchAt pat (c :: s) then some 0
    else (findMatchPos pat s).map (· + 1)

/-- Length consumed by the lazy `.*?` before the lookahead
`(?=# Code Switch v|\Z)` succeeds: distance to the first occurrence of the
marker, or the whole remainder. -/
def stopLen (m : List Char) : List Char → Nat
  | [] => 0
  | c :: s => if m.isPrefixOf (c :: s) then 0 else 1 + stopLen m s

/-- `match.group(0)` of
`re.search(rf"# Code Switch v{vc}.*?(?=# Code Switch v|\Z)", content, re.DOTALL)`. -/
def extractGroup (vc content : List Char) : Option (List Char) :=
  match findMatchPos (headLit vc) content with
  | none => none
  | some p =>
    let rest := content.drop p
    some (rest.take ((headLit vc).length + stopLen marker (rest.drop (headLit vc).length)))

/-- Post-processing of the matched group: strip it, drop its first line when
that line starts with `# `, and strip again. -/
def groupToNotes (g : List Char) : List Char :=
  match nlSplit (pyStrip g) with
  | [] => pyStrip g
  | l0 :: rest =>
    if "# ".data.isPrefixOf l0 then pyStrip (nlJoin rest) else pyStrip g

/-- The full notes computation of `main`. -/
def extractNotes (vc : List Char) (file : Option (List Char)) : List Char :=
  match file with
  | none => []
  | some content =>
    match extractGroup vc content with
    | none => []
    | some g => groupToNotes g

/-- Modelled from the spec (for comparison only): the section whose heading
LINE begins with the literal text `# Code Switch v<version_clean>`, the body
running to the next `# Code Switch v` heading line or to end of document,
heading removed and the body trimmed. -/
def extractNotesSpec (vc : List Char) (file : Option (List Char)) : List Char :=
  match file with
  | none => []
  | some content =>
    let lines := nlSplit content
    match lines.findIdx? (fun l => (headLit vc).isPrefixOf l) with
    | none => []
    | some i =>
      pyStrip (nlJoin ((lines.drop (i + 1)).takeWhile fun l => !(marker.isPrefixOf l)))

/-! ## The platform table and `main` -/

/-- One row of the static platform table. -/
structure PlatformConfig where
  key : List Char
  patterns : List (List Char)
  filename : List Char
deriving DecidableEq

/-- The five-platform configuration table, as built from `version_clean`. -/
def platformConfigs (vc : List Char) : List PlatformConfig :=
  [⟨"windows-x86_64".data,
    ["CodeSwitch-v".data ++ vc ++ ".exe".data, "CodeSwitch.exe".data],
    "CodeSwitch-v".data ++ vc ++ ".exe".data⟩,
   ⟨"windows-x86_64-installer".data,
    ["CodeSwitch-v".data ++ vc ++ "-amd64-installer.exe".data,
     "CodeSwitch-amd64-installer.exe".data],
    "CodeSwitch-v".data ++ vc ++ "-amd64-installer.exe".data⟩,
   ⟨"darwin-aarch64".data,
    ["CodeSwitch-v".data ++ vc ++ "-macos-arm64.zip".data,
     "codeswitch-macos-arm64.zip".data],
    "CodeSwitch-v".data ++ vc ++ "-macos-arm64.zip".data⟩,
   ⟨"darwin-x86_64".data,
    ["CodeSwitch-v".data ++ vc ++ "-macos-amd64.zip".data,
     "codeswitch-macos-amd64.zip".data],
    "CodeSwitch-v".data ++ vc ++ "-macos-amd64.zip".data⟩,
   ⟨"linux-x86_64".data,
    ["CodeSwitch-v".data ++ vc ++ ".AppImage".data, "CodeSwitch.AppImage".data],
    "CodeSwitch-v".data ++ vc ++ ".AppImage".data⟩]

/-- A `platforms` entry of the manifest. -/
structure AssetRecord where
  url : List Char
  sha256 : List Char
  size : Nat
deriving DecidableEq

/-- The manifest written to the output file (`pub_date`, a wall-clock read,
is outside the embedding). -/
structure Manifest where
  version : List Char
  notes : List Char
  platforms : List (List Char × AssetRecord)
deriving DecidableEq

/-- The filesystem one run sees: whether `assets_dir` exists, its listing,
and the optional `./RELEASE_NOTES.md`. -/
structure FileSys where
  dirExists : Bool
  files : List (List Char × List Nat)
  releaseNotes : Option (List Char)

/-- Exit code, the manifest written (if any), and the printed lines. -/
structure RunResult where
  exitCode : Nat
  output : Option Manifest
  logs : List (List Char)
deriving DecidableEq

/-- The GitHub download URL prefix. -/
def urlBase (vc : List Char) : List Char :=
  "https://github.com/Rogers-F/code-switch-R/releases/download/v".data ++ vc

/-- The `Found <key>: <name> (<size> bytes)` console line. -/
def foundLine (key name : List Char) (size : Nat) : List Char :=
  "Found ".data ++ key ++ ": ".data ++ name ++ " (".data ++ (Nat.repr size).data ++
  " bytes)".data

/-- One iteration of the platform loop: the optional `platforms` entry and the
lines printed for this platform. -/
def processPlatform (baseUrl : List Char) (files : List (List Char × List Nat))
    (cfg : PlatformConfig) :
    Option (List Char × AssetRecord) × List (List Char) :=
  match find_asset files cfg.patterns with
  | none => (none, ["Warning: No asset found for ".data ++ cfg.key])
  | some (name, content) =>
    let sha256 := compute_sha256 content
    let warns := sidecarWarnings name sha256 (lookupFile files (sidecarPathOf name))
    (some (cfg.key, ⟨baseUrl ++ "/".data ++ cfg.filename, sha256, get_file_size content⟩),
     warns ++ [foundLine cfg.key name (get_file_size content)])

/-- The usage message printed when positional arguments are missing. -/
def usageLines : List (List Char) :=
  ["Usage: generate-latest-json.py <version> <assets_dir> [output_file]".data,
   "  version: Version string (e.g., v2.6.23)".data,
   "  assets_dir: Directory containing release assets".data,
   "  output_file: Output file path (default: latest.json)".data]

/-- `main()`: `args` is `sys.argv[1:]`.  The trailing echo of the serialized
JSON to stdout is not modelled beyond its header line. -/
def runMain (args : List (List Char)) (fs : FileSys) : RunResult :=
  match args with
  | version :: assetsDir :: rest =>
    if fs.dirExists then
      let vc := version.dropWhile fun c => c == 'v'
      let results := (platformConfigs vc).map (processPlatform (urlBase vc) fs.files)
      let outName := rest.headD "latest.json".data
      ⟨0,
       some ⟨'v' :: vc, extractNotes vc fs.releaseNotes, results.filterMap Prod.fst⟩,
       catLists (results.map Prod.snd) ++ ["Generated ".data ++ outName ++ ":".data]⟩
    else ⟨1, none, ["Error: Assets directory not found: ".data ++ assetsDir]⟩
  | _ => ⟨1, none, usageLines⟩

/-! ## Helper lemmas: list and Python-string facts -/

theorem dropWhile_nil_or_head_false (p : α → Bool) (l : List α) :
    l.dropWhile p = [] ∨ ∃ c t, l.dropWhile p = c :: t ∧ p c = false := by
  induction l with
  | nil => exact Or.inl rfl
  | cons c t ih =>
    by_cases h : p c
    · simpa [List.dropWhile, h] using ih
    · exact Or.inr ⟨c, t, by simp [List.dropWhile, h], by simpa using h⟩

theorem dropWhile_self (p : α → Bool) (l : List α) :
    (l.dropWhile p).dropWhile p = l.dropWhile p := by
  rcases dropWhile_nil_or_head_false p l with h | ⟨c, t, h, hc⟩
  · simp [h]
  · simp [h, List.dropWhile, hc]

theorem dropWhile_eq_nil_of_all (p : α → Bool) (l : List α) (h : l.all p = true) :
    l.dropWhile p = [] := by
  induction l with
  | nil => rfl
  | cons c t ih =>
    simp only [List.all_cons, Bool.and_eq_true] at h
    simp [List.dropWhile, h.1, ih h.2]

theorem dropWhile_append_of_ne_nil (p : α → Bool) (l₁ l₂ : List α)
    (h : l₁.dropWhile p ≠ []) :
    (l₁ ++ l₂).dropWhile p = l₁.dropWhile p ++ l₂ := by
  induction l₁ with
  | nil => simp at h
  | cons c t ih =>
    by_cases hc : p c
    · simp only [List.dropWhile, hc] at h ⊢
      exact ih h
    · simp [List.dropWhile, hc]

theorem take_len_append (x y : List α) (n : Nat) :
    (x ++ y).take (x.length + n) = x ++ y.take n := by
  induction x with
  | nil => simp
  | cons c t ih => simp [List.take, Nat.succ_add, ih]

theorem drop_len_append (x y : List α) (n : Nat) :
    (x ++ y).drop (x.length + n) = y.drop n := by
  induction x with
  | nil => simp
  | cons c t ih => simp [List.drop, Nat.succ_add, ih]

theorem take_whole_append (x y : List α) :
    (x ++ y).take x.length = x := by
  simp

theorem drop_whole_append (x y : List α) :
    (x ++ y).drop x.length = y := by
  simp

theorem catLists_mem {y : α} {L : List (List α)} :
    y ∈ catLists L ↔ ∃ l ∈ L, y ∈ l := by
  induction L with
  | nil => simp [catLists]
  | cons l ls ih => simp [catLists, ih, List.mem_append]

/-- A stripped string neither starts nor consists of whitespace: `pyStrip`
output is `[]` or starts with a non-whitespace character. -/
theorem pyStrip_nil_or_head (s : List Char) :
    pyStrip s = [] ∨ ∃ c t, pyStrip s = c :: t ∧ isPyWS c = false := by
  exact dropWhile_nil_or_head_false isPyWS (rstripWS s)

theorem pyStrip_eq_nil_of_all_ws (s : List Char) (h : s.all isPyWS = true) :
    pyStrip s = [] := by
  have hrev : s.reverse.all isPyWS = true := by
    simpa [List.all_eq_true] using fun c hc => by
      have := (List.all_eq_true.mp h) c (by simpa using hc)
      exact this
  have h1 : s.reverse.dropWhile isPyWS = [] := dropWhile_eq_nil_of_all _ _ hrev
  simp [pyStrip, rstripWS, h1]

theorem splitWSAux_eq_nil (s : List Char) :
    ∀ acc, splitWSAux s acc = [] ↔ (acc = [] ∧ s.all isPyWS = true) := by
  induction s with
  | nil =>
    intro acc
    by_cases h : acc = [] <;> simp [splitWSAux, h]
  | cons c t ih =>
    intro acc
    by_cases hc : isPyWS c
    · by_cases h : acc = [] <;> simp [splitWSAux, hc, h, ih]
    · simp [splitWSAux, hc, ih, List.all_cons]

theorem pySplitWS_ne_nil (s : List Char) (hne : pyStrip s ≠ []) :
    ∃ tok ts, pySplitWS (pyStrip s) = tok :: ts := by
  rcases pyStrip_nil_or_head s with h | ⟨c, t, h, hc⟩
  · exact absurd h hne
  · rw [h]
    rcases he : pySplitWS (c :: t) with _ | ⟨tok, ts⟩
    · rw [pySplitWS, splitWSAux_eq_nil] at he
      simp [List.all_cons, hc] at he
    · exact ⟨tok, ts, rfl⟩

/-- The sidecar block never raises: the `content` guard protects the
`content.split()[0]` indexing. -/
theorem sidecarCheckE_ok (assetName computedHex : List Char)
    (sidecar : Option (List Nat)) :
    sidecarCheckE assetName computedHex sidecar =
      Except.ok (sidecarWarnings assetName computedHex sidecar) := by
  rcases sidecar with _ | raw
  · rfl
  · rw [sidecarCheckE]
    by_cases h : pyStrip (decodeText raw) = []
    · simp [h, sidecarWarnings, sidecarCheckE]
    · obtain ⟨tok, ts, hsplit⟩ := pySplitWS_ne_nil (decodeText raw) h
      rw [sidecarWarnings, sidecarCheckE]
      simp only [h, if_neg, tokenIdx0, hsplit]
      by_cases hcmp : pyLower tok = pyLower computedHex <;> simp [hcmp]

/-! ## Helper lemmas: the streaming hasher -/

theorem chunksBy_cat (size : Nat) (hs : 0 < size) :
    ∀ fuel (l : List Nat), l.length < fuel → catLists (chunksBy size fuel l) = l := by
  intro fuel
  induction fuel with
  | zero => intro l h; simp at h
  | succ n ih =>
    intro l h
    by_cases hl : l = []
    · simp [hl, chunksBy, catLists]
    · rw [chunksBy, if_neg hl]
      have hlen : 0 < l.length := List.length_pos.mpr hl
      have hrec : (l.drop size).length < n := by
        simp only [List.length_drop]
        omega
      simp only [catLists, ih (l.drop size) hrec]
      exact List.take_append_drop size l

theorem chunks4096_cat (l : List Nat) : catLists (chunks4096 l) = l := by
  exact chunksBy_cat 4096 (by omega) (l.length + 1) l (Nat.lt_succ_self _)

theorem foldl_update (bs : List (List Nat)) :
    ∀ acc, ((bs.foldl Hasher.update ⟨acc⟩)).absorbed = acc ++ catLists bs := by
  induction bs with
  | nil => intro acc; simp [catLists]
  | cons b bs ih =>
    intro acc
    simp only [List.foldl, Hasher.update, catLists, ih, List.append_assoc]

/-- The streaming digest of `compute_sha256` is the one-pass digest: feeding
the 4096-byte chunks one by one absorbs exactly the whole byte sequence. -/
theorem compute_sha256_eq_onepass (content : List Nat) :
    compute_sha256 content = sha256hex content := by
  rw [compute_sha256, Hasher.hexdigest, foldl_update, chunks4096_cat content]
  rfl

/-! ## Helper lemmas: shape of the hex digest -/

theorem hexOfBytes_length (bs : List Nat) :
    (hexOfBytes bs).length = 2 * bs.length := by
  induction bs with
  | nil => rfl
  | cons b t ih =>
    simp [hexOfBytes, byteHex, ih]
    omega

theorem digestBytes_length (st : H8) : (digestBytes st).length = 32 := by
  simp [digestBytes, wordBytes]

theorem sha256hex_length (msg : List Nat) : (sha256hex msg).length = 64 := by
  rw [sha256hex, hexOfBytes_length, sha256bytes, digestBytes_length]

theorem nib_mem (n : Nat) : nib n ∈ hexDigits := by
  rw [nib]
  have h16 : hexDigits.length = 16 := by decide
  have hlt : n % 16 < hexDigits.length := by
    rw [h16]
    exact Nat.mod_lt _ (by omega)
  rw [List.getD_eq_getElem _ _ hlt]
  exact List.getElem_mem hlt

theorem hexOfBytes_mem (bs : List Nat) (c : Char) (h : c ∈ hexOfBytes bs) :
    c ∈ hexDigits := by
  induction bs with
  | nil => simp [hexOfBytes] at h
  | cons b t ih =>
    simp only [hexOfBytes, byteHex, List.mem_append, List.mem_cons] at h
    rcases h with (h | h | h) | h
    · exact h ▸ nib_mem _
    · exact h ▸ nib_mem _
    · simp at h
    · exact ih h

theorem sha256hex_mem (msg : List Nat) (c : Char) (h : c ∈ sha256hex msg) :
    c ∈ hexDigits := hexOfBytes_mem _ c h

/-! ## Helper lemmas: release-notes extraction -/

theorem patMatchAt_self (p : List Char) : ∀ s, patMatchAt p (p ++ s) = true := by
  induction p with
  | nil => intro s; rfl
  | cons c t ih =>
    intro s
    simp [patMatchAt, ih s]

theorem findMatchPos_of_head (pat s : List Char) (h : patMatchAt pat s = true) :
    findMatchPos pat s = some 0 := by
  cases s with
  | nil => simp [findMatchPos, h]
  | cons c t => simp [findMatchPos, h]

theorem isPrefixOf_append_self (p : List Char) : ∀ s, p.isPrefixOf (p ++ s) = true := by
  induction p with
  | nil => intro s; simp [List.isPrefixOf]
  | cons c t ih =>
    intro s
    simp [List.isPrefixOf, ih s]

theorem stopLen_spec (m : List Char) :
    ∀ i s, (∀ j, j < i → m.isPrefixOf (s.drop j) = false) →
      m.isPrefixOf (s.drop i) = true → stopLen m s = i := by
  intro i
  induction i with
  | zero =>
    intro s _ h2
    cases s with
    | nil => rfl
    | cons c t => simp [stopLen, List.drop] at h2 ⊢; simp [h2]
  | succ i ih =>
    intro s h1 h2
    cases s with
    | nil =>
      have h0 := h1 0 (Nat.succ_pos _)
      simp [List.drop] at h0 h2
      subst h2
      simp [List.isPrefixOf] at h0
    | cons c t =>
      have h0 := h1 0 (Nat.succ_pos _)
      simp only [List.drop] at h0
      rw [stopLen, if_neg (by simp [h0])]
      have ht : stopLen m t = i := by
        apply ih
        · intro j hj
          have := h1 (j + 1) (Nat.succ_lt_succ hj)
          simpa [List.drop] using this
        · simpa [List.drop] using h2
      omega

theorem stopLen_none (m : List Char) :
    ∀ s, (∀ j, m.isPrefixOf (s.drop j) = false) → stopLen m s = s.length := by
  intro s
  induction s with
  | nil => intro _; rfl
  | cons c t ih =>
    intro h
    have h0 := h 0
    simp only [List.drop] at h0
    rw [stopLen, if_neg (by simp [h0])]
    have := ih fun j => by simpa [List.drop] using h (j + 1)
    simp [this]
    omega

theorem nlSplit_ne_nil (s : List Char) : nlSplit s ≠ [] := by
  cases s with
  | nil => simp [nlSplit]
  | cons c t =>
    by_cases h : c = '\n'
    · simp [nlSplit, h]
    · rcases he : nlSplit t with _ | ⟨l, ls⟩ <;> simp [nlSplit, h, he]

theorem nlJoin_nlSplit (s : List Char) : nlJoin (nlSplit s) = s := by
  induction s with
  | nil => rfl
  | cons c t ih =>
    by_cases h : c = '\n'
    · rcases he : nlSplit t with _ | ⟨l, ls⟩
      · exact absurd he (nlSplit_ne_nil t)
      · rw [h, nlSplit]
        simp only [if_pos rfl, he]
        rw [he] at ih
        cases ls <;> simp [nlJoin] at ih ⊢ <;> simp [ih]
    · rcases he : nlSplit t with _ | ⟨l, ls⟩
      · exact absurd he (nlSplit_ne_nil t)
      · rw [nlSplit]
        simp only [if_neg h, he]
        rw [he] at ih
        cases ls <;> simp [nlJoin] at ih ⊢ <;> simp [ih]

theorem nlSplit_append (a : List Char) :
    ∀ b, '\n' ∉ a → nlSplit (a ++ '\n' :: b) = a :: nlSplit b := by
  induction a with
  | nil => intro b _; simp [nlSplit]
  | cons c t ih =>
    intro b h
    have hc : ¬c = '\n' := fun hc => h (by simp [hc])
    have ht : '\n' ∉ t := fun hm => h (List.mem_cons_of_mem _ hm)
    simp only [List.cons_append, nlSplit, if_neg hc]
    rw [show t.append ('\n' :: b) = t ++ '\n' :: b from rfl, ih b ht]

theorem rstrip_append (x b : List Char) (hb : b.all isPyWS = false) :
    rstripWS (x ++ b) = x ++ rstripWS b := by
  have hne : b.reverse.dropWhile isPyWS ≠ [] := by
    intro hnil
    rw [List.dropWhile_eq_nil_iff] at hnil
    have : b.all isPyWS = true := List.all_eq_true.mpr fun c hc =>
      hnil c (List.mem_reverse.mpr hc)
    rw [this] at hb
    cases hb
  rw [rstripWS, List.reverse_append, dropWhile_append_of_ne_nil _ _ _ hne]
  rw [List.reverse_append, List.reverse_reverse, rstripWS]

theorem rstrip_idem (b : List Char) : rstripWS (rstripWS b) = rstripWS b := by
  rw [rstripWS, rstripWS, List.reverse_reverse, dropWhile_self]

theorem pyStrip_rstrip (b : List Char) : pyStrip (rstripWS b) = pyStrip b := by
  rw [pyStrip, pyStrip, rstrip_idem]

theorem marker_expand : marker = '#' :: ' ' :: "Code Switch v".data := by
  decide

theorem nl_not_mem_marker : '\n' ∉ marker := by
  decide

theorem hashMarkPrefixHeadLit (vc : List Char) :
    ("# ".data).isPrefixOf (headLit vc) = true := by
  rw [headLit, marker_expand]
  have h2 : "# ".data = ['#', ' '] := by decide
  rw [h2]
  simp [List.isPrefixOf]

theorem groupToNotes_heading (vc b : List Char) (hv : '\n' ∉ vc)
    (hb : b.all isPyWS = false) :
    groupToNotes (headLit vc ++ '\n' :: b) = pyStrip b := by
  have hsplit : headLit vc ++ '\n' :: b = (headLit vc ++ ['\n']) ++ b := by simp
  have hstrip : pyStrip (headLit vc ++ '\n' :: b) = headLit vc ++ '\n' :: rstripWS b := by
    rw [hsplit, pyStrip, rstrip_append _ _ hb]
    have hcons : (headLit vc ++ ['\n']) ++ rstripWS b =
        '#' :: (' ' :: "Code Switch v".data ++ vc ++ '\n' :: rstripWS b) := by
      rw [headLit, marker_expand]
      simp
    rw [hcons, List.dropWhile]
    rw [show isPyWS '#' = false from by decide]
    rw [headLit, marker_expand]
    simp
  have hnl : '\n' ∉ headLit vc := by
    rw [headLit]
    intro hmem
    rcases List.mem_append.mp hmem with h | h
    · exact nl_not_mem_marker h
    · exact hv h
  rw [groupToNotes, hstrip, nlSplit_append _ _ hnl]
  simp only [hashMarkPrefixHeadLit vc, if_pos]
  rw [nlJoin_nlSplit, pyStrip_rstrip]

theorem extractGroup_section (vc b t2 : List Char)
    (hearly : ∀ j, j < ('\n' :: b).length →
      marker.isPrefixOf ((('\n' :: b) ++ marker ++ t2).drop j) = false) :
    extractGroup vc (headLit vc ++ (('\n' :: b) ++ marker ++ t2)) =
      some (headLit vc ++ '\n' :: b) := by
  have hfind : findMatchPos (headLit vc) (headLit vc ++ (('\n' :: b) ++ marker ++ t2)) =
      some 0 :=
    findMatchPos_of_head _ _ (patMatchAt_self _ _)
  rw [extractGroup, hfind]
  simp only [List.drop_zero]
  rw [drop_whole_append (headLit vc) (('\n' :: b) ++ marker ++ t2)]
  have hstop : stopLen marker (('\n' :: b) ++ marker ++ t2) = ('\n' :: b).length := by
    apply stopLen_spec marker (('\n' :: b).length) _ hearly
    rw [List.append_assoc, drop_whole_append ('\n' :: b) (marker ++ t2)]
    exact isPrefixOf_append_self marker t2
  rw [hstop, take_len_append]
  rw [List.append_assoc, take_whole_append ('\n' :: b) (marker ++ t2)]

theorem extractGroup_last (vc b : List Char)
    (hnone : ∀ j, marker.isPrefixOf (('\n' :: b).drop j) = false) :
    extractGroup vc (headLit vc ++ '\n' :: b) = some (headLit vc ++ '\n' :: b) := by
  have hfind : findMatchPos (headLit vc) (headLit vc ++ '\n' :: b) = some 0 :=
    findMatchPos_of_head _ _ (patMatchAt_self _ _)
  rw [extractGroup, hfind]
  simp only [List.drop_zero]
  rw [drop_whole_append (headLit vc) ('\n' :: b)]
  rw [stopLen_none marker ('\n' :: b) hnone, take_len_append]
  rw [List.take_length]

theorem takeWhile_dropWhile_nil (p : α → Bool) (l : List α) :
    (l.dropWhile p).takeWhile p = [] := by
  rcases dropWhile_nil_or_head_false p l with h | ⟨c, t, h, hc⟩
  · simp [h]
  · simp [h, List.takeWhile, hc]

/-- The five platform keys are pairwise distinct, so a key determines its
row of the configuration table. -/
theorem platformConfigs_key_inj (vc : List Char) (c1 c2 : PlatformConfig)
    (h1 : c1 ∈ platformConfigs vc) (h2 : c2 ∈ platformConfigs vc)
    (hk : c1.key = c2.key) : c1 = c2 := by
  simp only [platformConfigs, List.mem_cons, List.not_mem_nil, or_false] at h1 h2
  rcases h1 with rfl | rfl | rfl | rfl | rfl <;>
    rcases h2 with rfl | rfl | rfl | rfl | rfl <;>
    first
    | rfl
    | (exfalso; simp only at hk; exact absurd hk (by decide))

theorem append3_ne_nil (x y z : List α) (hy : y ≠ []) : x ++ y ++ z ≠ [] := by
  intro h
  simp only [List.append_eq_nil] at h
  exact hy h.1.2

/-! ## Claim theorems -/

/-- C6: for every file (finite byte sequence), the digest produced by the
streaming hasher that reads the file in 4096-byte chunks equals the SHA-256
digest of the file's entire byte content hashed in one pass, as a lowercase
hex string (64 characters drawn from `0-9a-f`). -/
theorem claim_streaming_digest :
    ∀ content : List Nat,
      compute_sha256 content = sha256hex content ∧
      (compute_sha256 content).length = 64 ∧
      ∀ c ∈ compute_sha256 content, c ∈ hexDigits := by
  intro content
  refine ⟨compute_sha256_eq_onepass content, ?_, ?_⟩
  · rw [compute_sha256_eq_onepass]
    exact sha256hex_length content
  · intro c hc
    rw [compute_sha256_eq_onepass] at hc
    exact sha256hex_mem content c hc

/-- C8: for every matched asset named `X`, the sidecar path that is checked
is exactly `X` with the literal suffix `.sha256` appended after the existing
extension, never replacing it. -/
theorem claim_sidecar_path :
    (∀ name : List Char, sidecarPathOf name = name ++ ".sha256".data) ∧
    sidecarPathOf "CodeSwitch-v2.6.23.AppImage".data =
      "CodeSwitch-v2.6.23.AppImage.sha256".data := by
  constructor
  · intro name
    rw [sidecarPathOf, withSuffix]
    by_cases h : pySuffix name = []
    · rw [if_pos h, h]
      simp
    · rw [if_neg h]
      rcases hf : rfindDot name with _ | i
      · exact absurd (by simp [pySuffix, hf]) h
      · by_cases hcond : 0 < i ∧ i + 1 < name.length
        · have hps : pySuffix name = name.drop i := by
            simp [pySuffix, hf, hcond]
          rw [hps, List.length_drop]
          have h2 : name.length - (name.length - i) = i := by
            omega
          rw [h2, ← List.append_assoc, List.take_append_drop]
        · exact absurd (by simp [pySuffix, hf, hcond]) h
  · decide

/-- C4: the process exits non-zero exactly when fewer than two positional
arguments are supplied or `assets_dir` does not exist; no output is written
when `assets_dir` is missing; otherwise it exits `0` having written the
output file. -/
theorem claim_exit_status (args : List (List Char)) (fs : FileSys) :
    ((runMain args fs).exitCode ≠ 0 ↔ (args.length < 2 ∨ fs.dirExists = false)) ∧
    (fs.dirExists = false → (runMain args fs).output = none) ∧
    (args.length < 2 → (runMain args fs).output = none) ∧
    (2 ≤ args.length → fs.dirExists = true →
      (runMain args fs).exitCode = 0 ∧ ∃ m, (runMain args fs).output = some m) := by
  rcases args with _ | ⟨v, args⟩
  · cases hd : fs.dirExists <;> simp [runMain, hd]
  rcases args with _ | ⟨d, rest⟩
  · cases hd : fs.dirExists <;> simp [runMain, hd]
  · cases hd : fs.dirExists <;> simp [runMain, hd]

/-- C4 witness: with two arguments and an existing assets directory the run
exits `0` and writes a manifest. -/
theorem claim_exit_status_witness :
    (runMain ["v1".data, "d".data] ⟨true, [], none⟩).exitCode = 0 ∧
    ∃ m, (runMain ["v1".data, "d".data] ⟨true, [], none⟩).output = some m :=
  (claim_exit_status ["v1".data, "d".data] ⟨true, [], none⟩).2.2.2 (by decide) rfl

/-- C3: the manifest's `version` field carries exactly one leading `v`
(its longest leading run of `v` characters is the single character `v`),
and supplying `v2.6.23` or `2.6.23` both yield `v2.6.23`. -/
theorem claim_version_single_v :
    (∀ (args : List (List Char)) (fs : FileSys) (m : Manifest),
      (runMain args fs).output = some m →
      m.version.takeWhile (fun c => c == 'v') = ['v']) ∧
    (∀ fs : FileSys, fs.dirExists = true →
      ((runMain ["v2.6.23".data, "dir".data] fs).output.map Manifest.version =
          some "v2.6.23".data ∧
        (runMain ["2.6.23".data, "dir".data] fs).output.map Manifest.version =
          some "v2.6.23".data)) := by
  constructor
  · intro args fs m hm
    rcases args with _ | ⟨v, args⟩
    · simp [runMain] at hm
    rcases args with _ | ⟨d, rest⟩
    · simp [runMain] at hm
    cases hd : fs.dirExists
    · simp [runMain, hd] at hm
    · simp only [runMain, hd, if_true, Option.some.injEq] at hm
      subst hm
      simp only [List.takeWhile]
      rw [show (('v' == 'v') = true) from rfl]
      simp [takeWhile_dropWhile_nil]
  · intro fs hd
    constructor <;> simp [runMain, hd]

/-- C3 witness: a concrete run demonstrating both normalizations. -/
theorem claim_version_single_v_witness :
    (runMain ["v2.6.23".data, "dir".data] ⟨true, [], none⟩).output.map Manifest.version =
      some "v2.6.23".data ∧
    (runMain ["2.6.23".data, "dir".data] ⟨true, [], none⟩).output.map Manifest.version =
      some "v2.6.23".data :=
  claim_version_single_v.2 ⟨true, [], none⟩ rfl

/-- C1: when a sidecar checksum file exists for a matched asset and its first
whitespace-separated token differs case-insensitively from the freshly
computed digest, the run still records the computed digest in the platform
entry and prints a warning showing both values; when the token agrees up to
letter case, no mismatch warning is printed (and the computed digest is
recorded regardless). -/
theorem claim_sidecar_mismatch (baseUrl : List Char)
    (files : List (List Char × List Nat)) (cfg : PlatformConfig)
    (name : List Char) (content raw : List Nat)
    (hfind : find_asset files cfg.patterns = some (name, content))
    (hside : lookupFile files (sidecarPathOf name) = some raw)
    (hne : pyStrip (decodeText raw) ≠ []) :
    (processPlatform baseUrl files cfg).1 =
      some (cfg.key,
        ⟨baseUrl ++ "/".data ++ cfg.filename, compute_sha256 content,
         content.length⟩) ∧
    ∀ tok ts, pySplitWS (pyStrip (decodeText raw)) = tok :: ts →
      (pyLower tok ≠ pyLower (compute_sha256 content) →
        (processPlatform baseUrl files cfg).2 =
          mismatchLines name (compute_sha256 content) tok ++
            [foundLine cfg.key name content.length]) ∧
      (pyLower tok = pyLower (compute_sha256 content) →
        (processPlatform baseUrl files cfg).2 =
          [foundLine cfg.key name content.length]) := by
  have hpp : processPlatform baseUrl files cfg =
      (some (cfg.key,
         ⟨baseUrl ++ "/".data ++ cfg.filename, compute_sha256 content,
          content.length⟩),
       sidecarWarnings name (compute_sha256 content) (some raw) ++
         [foundLine cfg.key name content.length]) := by
    simp [processPlatform, hfind, hside, get_file_size]
  rw [hpp]
  refine ⟨rfl, ?_⟩
  intro tok ts hsp
  have hsw : sidecarWarnings name (compute_sha256 content) (some raw) =
      if pyLower tok = pyLower (compute_sha256 content) then []
      else mismatchLines name (compute_sha256 content) tok := by
    rw [sidecarWarnings, sidecarCheckE]
    simp only [if_neg hne, tokenIdx0, hsp]
    by_cases hc : pyLower tok = pyLower (compute_sha256 content) <;> simp [hc]
  constructor
  · intro hneq
    rw [hsw, if_neg hneq]
  · intro heq
    rw [hsw, if_pos heq]
    rfl

/-- C1 witness: a sidecar whose token `deadbeef` differs from the computed
digest of the byte file `[1, 2, 3]` yields the mismatch warning with both
values while the entry records the computed digest. -/
theorem claim_sidecar_mismatch_witness :
    (processPlatform "B".data
        [("CodeSwitch-v1.exe".data, [1, 2, 3]),
         ("CodeSwitch-v1.exe.sha256".data, "deadbeef  f".data.map Char.toNat)]
        ⟨"windows-x86_64".data, ["CodeSwitch-v1.exe".data],
         "CodeSwitch-v1.exe".data⟩).1 =
      some ("windows-x86_64".data,
        ⟨"B".data ++ "/".data ++ "CodeSwitch-v1.exe".data,
         compute_sha256 [1, 2, 3], 3⟩) ∧
    (processPlatform "B".data
        [("CodeSwitch-v1.exe".data, [1, 2, 3]),
         ("CodeSwitch-v1.exe.sha256".data, "deadbeef  f".data.map Char.toNat)]
        ⟨"windows-x86_64".data, ["CodeSwitch-v1.exe".data],
         "CodeSwitch-v1.exe".data⟩).2 =
      mismatchLines "CodeSwitch-v1.exe".data (compute_sha256 [1, 2, 3])
          "deadbeef".data ++
        [foundLine "windows-x86_64".data "CodeSwitch-v1.exe".data 3] := by
  have h := claim_sidecar_mismatch "B".data
      [("CodeSwitch-v1.exe".data, [1, 2, 3]),
       ("CodeSwitch-v1.exe.sha256".data, "deadbeef  f".data.map Char.toNat)]
      ⟨"windows-x86_64".data, ["CodeSwitch-v1.exe".data], "CodeSwitch-v1.exe".data⟩
      "CodeSwitch-v1.exe".data [1, 2, 3] ("deadbeef  f".data.map Char.toNat)
      (by decide) (by decide) (by decide)
  exact ⟨h.1, (h.2 "deadbeef".data ["f".data] (by decide)).1 (by decide)⟩

/-- C5: a platform whose pattern list matches nothing is reported with a
warning, the run exits `0`, and that platform's key is absent from the
manifest's `platforms` mapping. -/
theorem claim_missing_platform_skipped (version assetsDir : List Char)
    (rest : List (List Char)) (fs : FileSys) (cfg : PlatformConfig)
    (hdir : fs.dirExists = true)
    (hcfg : cfg ∈ platformConfigs (version.dropWhile fun c => c == 'v'))
    (hnone : find_asset fs.files cfg.patterns = none) :
    (runMain (version :: assetsDir :: rest) fs).exitCode = 0 ∧
    ("Warning: No asset found for ".data ++ cfg.key) ∈
      (runMain (version :: assetsDir :: rest) fs).logs ∧
    ∀ m rec, (runMain (version :: assetsDir :: rest) fs).output = some m →
      (cfg.key, rec) ∉ m.platforms := by
  refine ⟨by simp [runMain, hdir], ?_, ?_⟩
  · simp only [runMain, hdir, if_true]
    apply List.mem_append.mpr
    left
    apply catLists_mem.mpr
    refine ⟨(processPlatform (urlBase (version.dropWhile fun c => c == 'v'))
        fs.files cfg).2, ?_, ?_⟩
    · exact List.mem_map_of_mem _ (List.mem_map_of_mem _ hcfg)
    · simp [processPlatform, hnone]
  · intro m rec hm hmem
    simp only [runMain, hdir, if_true, Option.some.injEq] at hm
    subst hm
    simp only at hmem
    rw [List.mem_filterMap] at hmem
    obtain ⟨x, hx, hfst⟩ := hmem
    rw [List.mem_map] at hx
    obtain ⟨cfg2, hcfg2, rfl⟩ := hx
    rcases hfa : find_asset fs.files cfg2.patterns with _ | ⟨nm, ct⟩
    · simp [processPlatform, hfa] at hfst
    · simp only [processPlatform, hfa, Option.some.injEq, Prod.mk.injEq] at hfst
      have hkey : cfg2.key = cfg.key := hfst.1
      have := platformConfigs_key_inj _ cfg2 cfg hcfg2 hcfg hkey
      subst this
      rw [hnone] at hfa
      cases hfa

/-- C5 witness: with an empty assets directory the `linux-x86_64` platform is
warned about and absent from the manifest. -/
theorem claim_missing_platform_skipped_witness :
    (runMain ["1".data, "d".data] ⟨true, [], none⟩).exitCode = 0 ∧
    ("Warning: No asset found for ".data ++ "linux-x86_64".data) ∈
      (runMain ["1".data, "d".data] ⟨true, [], none⟩).logs ∧
    ∀ m rec, (runMain ["1".data, "d".data] ⟨true, [], none⟩).output = some m →
      ("linux-x86_64".data, rec) ∉ m.platforms := by
  have h := claim_missing_platform_skipped "1".data "d".data [] ⟨true, [], none⟩
      ⟨"linux-x86_64".data,
       ["CodeSwitch-v".data ++ "1".data ++ ".AppImage".data,
        "CodeSwitch.AppImage".data],
       "CodeSwitch-v".data ++ "1".data ++ ".AppImage".data⟩
      rfl (by decide) (by decide)
  exact h

/-- C7: every record present in the manifest's `platforms` mapping has a
non-empty `url`, a `sha256` of exactly 64 lowercase hexadecimal characters,
and a non-negative `size`. -/
theorem claim_platform_record_invariants (args : List (List Char)) (fs : FileSys)
    (m : Manifest) (key : List Char) (rec : AssetRecord)
    (hm : (runMain args fs).output = some m)
    (hrec : (key, rec) ∈ m.platforms) :
    rec.url ≠ [] ∧ rec.sha256.length = 64 ∧ (∀ c ∈ rec.sha256, c ∈ hexDigits) ∧
      0 ≤ rec.size := by
  rcases args with _ | ⟨v, args⟩
  · simp [runMain] at hm
  rcases args with _ | ⟨d, rest⟩
  · simp [runMain] at hm
  cases hd : fs.dirExists
  · simp [runMain, hd] at hm
  · simp only [runMain, hd, if_true, Option.some.injEq] at hm
    subst hm
    simp only at hrec
    rw [List.mem_filterMap] at hrec
    obtain ⟨x, hx, hfst⟩ := hrec
    rw [List.mem_map] at hx
    obtain ⟨cfg, hcfg, rfl⟩ := hx
    rcases hfa : find_asset fs.files cfg.patterns with _ | ⟨nm, ct⟩
    · simp [processPlatform, hfa] at hfst
    · simp only [processPlatform, hfa, Option.some.injEq, Prod.mk.injEq] at hfst
      obtain ⟨hkey, hrec2⟩ := hfst
      subst hrec2
      refine ⟨?_, ?_, ?_, Nat.zero_le _⟩
      · exact append3_ne_nil _ _ _ (by decide)
      · show (compute_sha256 ct).length = 64
        rw [compute_sha256_eq_onepass]
        exact sha256hex_length ct
      · intro c hc
        rw [show (⟨_, compute_sha256 ct, _⟩ : AssetRecord).sha256 =
            compute_sha256 ct from rfl, compute_sha256_eq_onepass] at hc
        exact sha256hex_mem ct c hc

/-- C7 witness: the record of a concrete one-asset run satisfies the
invariants. -/
theorem claim_platform_record_invariants_witness :
    (⟨urlBase "1".data ++ "/".data ++ ("CodeSwitch-v".data ++ "1".data ++ ".exe".data),
      compute_sha256 [1, 2, 3], 3⟩ : AssetRecord).url ≠ [] ∧
    (⟨urlBase "1".data ++ "/".data ++ ("CodeSwitch-v".data ++ "1".data ++ ".exe".data),
      compute_sha256 [1, 2, 3], 3⟩ : AssetRecord).sha256.length = 64 ∧
    (∀ c ∈ (⟨urlBase "1".data ++ "/".data ++
        ("CodeSwitch-v".data ++ "1".data ++ ".exe".data),
      compute_sha256 [1, 2, 3], 3⟩ : AssetRecord).sha256, c ∈ hexDigits) ∧
    0 ≤ (⟨urlBase "1".data ++ "/".data ++
        ("CodeSwitch-v".data ++ "1".data ++ ".exe".data),
      compute_sha256 [1, 2, 3], 3⟩ : AssetRecord).size := by
  have h := claim_platform_record_invariants ["1".data, "d".data]
      ⟨true, [("CodeSwitch-v1.exe".data, [1, 2, 3])], none⟩
      ⟨"v1".data, [],
       [("windows-x86_64".data,
         ⟨urlBase "1".data ++ "/".data ++
            ("CodeSwitch-v".data ++ "1".data ++ ".exe".data),
          compute_sha256 [1, 2, 3], 3⟩)]⟩
      "windows-x86_64".data
      ⟨urlBase "1".data ++ "/".data ++ ("CodeSwitch-v".data ++ "1".data ++ ".exe".data),
       compute_sha256 [1, 2, 3], 3⟩
      (by decide) (by decide)
  exact h

/-- C9 counterexample: with a whitespace-only sidecar next to a matched
asset, the run prints exactly the same lines as the identical run with no
sidecar file at all — no warning about the empty sidecar is logged (the
platform entry is still produced and the run exits `0`). -/
theorem claim_empty_sidecar_counterexample :
    (runMain ["1".data, "d".data]
        ⟨true, [("CodeSwitch-v1.exe".data, [1, 2, 3]),
                ("CodeSwitch-v1.exe.sha256".data, [32, 32, 10])], none⟩).logs =
      (runMain ["1".data, "d".data]
        ⟨true, [("CodeSwitch-v1.exe".data, [1, 2, 3])], none⟩).logs ∧
    (runMain ["1".data, "d".data]
        ⟨true, [("CodeSwitch-v1.exe".data, [1, 2, 3]),
                ("CodeSwitch-v1.exe.sha256".data, [32, 32, 10])], none⟩).logs =
      ["Found windows-x86_64: CodeSwitch-v1.exe (3 bytes)".data,
       "Warning: No asset found for windows-x86_64-installer".data,
       "Warning: No asset found for darwin-aarch64".data,
       "Warning: No asset found for darwin-x86_64".data,
       "Warning: No asset found for linux-x86_64".data,
       "Generated latest.json:".data] ∧
    (runMain ["1".data, "d".data]
        ⟨true, [("CodeSwitch-v1.exe".data, [1, 2, 3]),
                ("CodeSwitch-v1.exe.sha256".data, [32, 32, 10])], none⟩).exitCode = 0 ∧
    ((runMain ["1".data, "d".data]
        ⟨true, [("CodeSwitch-v1.exe".data, [1, 2, 3]),
                ("CodeSwitch-v1.exe.sha256".data, [32, 32, 10])], none⟩).output.map
      fun m => m.platforms.map Prod.fst) = some ["windows-x86_64".data] := by
  exact ⟨by decide, by decide, by decide, by decide⟩

/-- C9 (amended): when a sidecar checksum file exists for a matched asset but
its content is empty or whitespace-only, no warning is printed for it; the
run continues and the platform entry is still produced, the console line for
the platform being exactly the `Found` line. -/
theorem claim_empty_sidecar_amended (baseUrl : List Char)
    (files : List (List Char × List Nat)) (cfg : PlatformConfig)
    (name : List Char) (content raw : List Nat)
    (hfind : find_asset files cfg.patterns = some (name, content))
    (hside : lookupFile files (sidecarPathOf name) = some raw)
    (hws : (decodeText raw).all isPyWS = true) :
    processPlatform baseUrl files cfg =
      (some (cfg.key,
         ⟨baseUrl ++ "/".data ++ cfg.filename, compute_sha256 content,
          content.length⟩),
       [foundLine cfg.key name content.length]) := by
  have hnil : pyStrip (decodeText raw) = [] := pyStrip_eq_nil_of_all_ws _ hws
  have hsw : sidecarWarnings name (compute_sha256 content) (some raw) = [] := by
    rw [sidecarWarnings, sidecarCheckE]
    simp [hnil]
  simp [processPlatform, hfind, hside, get_file_size, hsw]

/-- C9 (amended) witness: a concrete whitespace-only sidecar. -/
theorem claim_empty_sidecar_amended_witness :
    processPlatform "B".data
        [("CodeSwitch-v1.exe".data, [1, 2, 3]),
         ("CodeSwitch-v1.exe.sha256".data, [32, 32, 10])]
        ⟨"windows-x86_64".data, ["CodeSwitch-v1.exe".data],
         "CodeSwitch-v1.exe".data⟩ =
      (some ("windows-x86_64".data,
         ⟨"B".data ++ "/".data ++ "CodeSwitch-v1.exe".data,
          compute_sha256 [1, 2, 3], 3⟩),
       [foundLine "windows-x86_64".data "CodeSwitch-v1.exe".data 3]) := by
  have h := claim_empty_sidecar_amended "B".data
      [("CodeSwitch-v1.exe".data, [1, 2, 3]),
       ("CodeSwitch-v1.exe.sha256".data, [32, 32, 10])]
      ⟨"windows-x86_64".data, ["CodeSwitch-v1.exe".data], "CodeSwitch-v1.exe".data⟩
      "CodeSwitch-v1.exe".data [1, 2, 3] [32, 32, 10]
      (by decide) (by decide) (by decide)
  exact h

/-- C10: for a whitespace-only sidecar, token extraction is never attempted —
indexing `split()[0]` on the stripped content would raise `IndexError`, but
the guard yields `ok` with no warnings — and the platform entry is identical
to the run in which no sidecar file exists at all. -/
theorem claim_empty_sidecar_safety (assetName computedHex : List Char)
    (raw : List Nat) (baseUrl : List Char) (cfg : PlatformConfig)
    (files1 files2 : List (List Char × List Nat)) (name : List Char)
    (content : List Nat)
    (hws : (decodeText raw).all isPyWS = true)
    (hf1 : find_asset files1 cfg.patterns = some (name, content))
    (hf2 : find_asset files2 cfg.patterns = some (name, content))
    (hs1 : lookupFile files1 (sidecarPathOf name) = some raw)
    (hs2 : lookupFile files2 (sidecarPathOf name) = none) :
    tokenIdx0 (pyStrip (decodeText raw)) = Except.error "IndexError" ∧
    sidecarCheckE assetName computedHex (some raw) = Except.ok [] ∧
    processPlatform baseUrl files1 cfg = processPlatform baseUrl files2 cfg := by
  have hnil : pyStrip (decodeText raw) = [] := pyStrip_eq_nil_of_all_ws _ hws
  refine ⟨by rw [hnil]; rfl, ?_, ?_⟩
  · rw [sidecarCheckE]
    simp [hnil]
  · have hsw : sidecarWarnings name (compute_sha256 content) (some raw) = [] := by
      rw [sidecarWarnings, sidecarCheckE]
      simp [hnil]
    have hsw2 : sidecarWarnings name (compute_sha256 content) none = [] := rfl
    simp [processPlatform, hf1, hf2, hs1, hs2, get_file_size, hsw, hsw2]

/-- C10 witness: concrete directories with and without the whitespace-only
sidecar produce the same platform result. -/
theorem claim_empty_sidecar_safety_witness :
    tokenIdx0 (pyStrip (decodeText [32, 32, 10])) = Except.error "IndexError" ∧
    sidecarCheckE "a".data "b".data (some [32, 32, 10]) = Except.ok [] ∧
    processPlatform "B".data
        [("CodeSwitch-v1.exe".data, [1, 2, 3]),
         ("CodeSwitch-v1.exe.sha256".data, [32, 32, 10])]
        ⟨"windows-x86_64".data, ["CodeSwitch-v1.exe".data],
         "CodeSwitch-v1.exe".data⟩ =
      processPlatform "B".data [("CodeSwitch-v1.exe".data, [1, 2, 3])]
        ⟨"windows-x86_64".data, ["CodeSwitch-v1.exe".data],
         "CodeSwitch-v1.exe".data⟩ := by
  have h := claim_empty_sidecar_safety "a".data "b".data [32, 32, 10] "B".data
      ⟨"windows-x86_64".data, ["CodeSwitch-v1.exe".data], "CodeSwitch-v1.exe".data⟩
      [("CodeSwitch-v1.exe".data, [1, 2, 3]),
       ("CodeSwitch-v1.exe.sha256".data, [32, 32, 10])]
      [("CodeSwitch-v1.exe".data, [1, 2, 3])]
      "CodeSwitch-v1.exe".data [1, 2, 3]
      (by decide) (by decide) (by decide) (by decide) (by decide)
  exact h

/-- C2 counterexample: the version is pasted into the regex unescaped, so its
`.` characters match any character.  For the document
`# Code Switch v2A6B23\nFoo` and requested version `2.6.23` the code yields
`Foo`, although no heading line matches the literal text
`# Code Switch v2.6.23` — the claim says the notes should then be empty, as
the spec-modelled line-based extractor confirms. -/
theorem claim_notes_literal_counterexample :
    extractNotes "2.6.23".data (some "# Code Switch v2A6B23\nFoo".data) =
      "Foo".data ∧
    extractNotesSpec "2.6.23".data (some "# Code Switch v2A6B23\nFoo".data) = [] := by
  exact ⟨by decide, by decide⟩

/-- C2 (amended): extraction is occurrence-based with `.` of the cleaned
version acting as a wildcard: the group starts at the leftmost match of
`# Code Switch v<version_clean>` and runs to the next occurrence of
`# Code Switch v` or to end of document; the heading line is dropped and the
body trimmed.  When the file is absent or the pattern never matches, notes
is empty; a document whose matching heading is the literal one followed by a
body and then the next heading (or end of document) yields the trimmed
body. -/
theorem claim_notes_extraction_amended :
    (∀ vc : List Char, extractNotes vc none = []) ∧
    (∀ vc content : List Char, findMatchPos (headLit vc) content = none →
      extractNotes vc (some content) = []) ∧
    (∀ vc b t2 : List Char, '\n' ∉ vc → b.all isPyWS = false →
      (∀ j, j < ('\n' :: b).length →
        marker.isPrefixOf ((('\n' :: b) ++ marker ++ t2).drop j) = false) →
      extractNotes vc (some (headLit vc ++ (('\n' :: b) ++ marker ++ t2))) =
        pyStrip b) ∧
    (∀ vc b : List Char, '\n' ∉ vc → b.all isPyWS = false →
      (∀ j, marker.isPrefixOf (('\n' :: b).drop j) = false) →
      extractNotes vc (some (headLit vc ++ '\n' :: b)) = pyStrip b) := by
  refine ⟨fun vc => rfl, ?_, ?_, ?_⟩
  · intro vc content hnone
    simp [extractNotes, extractGroup, hnone]
  · intro vc b t2 hv hb hearly
    simp only [extractNotes, extractGroup_section vc b t2 hearly]
    exact groupToNotes_heading vc b hv hb
  · intro vc b hv hb hnone
    simp only [extractNotes, extractGroup_last vc b hnone]
    exact groupToNotes_heading vc b hv hb

/-- C2 (amended) witness: the two-section document of the claim yields
`Foo` for version `2.6.23`. -/
theorem claim_notes_extraction_amended_witness :
    extractNotes "2.6.23".data
        (some "# Code Switch v2.6.23\nFoo\n# Code Switch v2.6.22\nBar".data) =
      "Foo".data := by
  have h := claim_notes_extraction_amended.2.2.1 "2.6.23".data "Foo\n".data
      "2.6.22\nBar".data (by decide) (by decide) (by decide)
  have e1 : headLit "2.6.23".data ++
      (('\n' :: "Foo\n".data) ++ marker ++ "2.6.22\nBar".data) =
      "# Code Switch v2.6.23\nFoo\n# Code Switch v2.6.22\nBar".data := by decide
  have e2 : pyStrip "Foo\n".data = "Foo".data := by decide
  rw [e1, e2] at h
  exact h

end CS
